import Mathlib

/-!
Verification development for the image URL rewriting and caching layer of the
wx2md worker (source module `r2-images.ts`).

The JavaScript source is shallowly embedded:
* strings are `String` / `List Char` (UTF-16 subtleties do not arise for the
  inputs of interest, all of which are scalar-value text);
* the WHATWG `URL` constructor is modelled by `parseUrl`, covering the
  hierarchical `scheme://host/path?query#fragment` shape used by image URLs
  (userinfo, port normalisation beyond stripping, IDN and dot-segment
  normalisation are simplified away; a string which does not fit this shape
  parses to `none`, matching the `try/catch` that maps a throwing constructor
  to `null`);
* the two regular expressions of the source are concrete, so they are embedded
  directly as deterministic scanners with the exact greedy semantics the
  JavaScript engine exhibits on them (maximal munch, leftmost scan, continue
  after each match);
* `fetch` and the R2 bucket are oracles supplied as parameters; exceptions
  thrown by collaborators are modelled with `Except`;
* recursive scanners take an explicit fuel argument equal to the input length,
  which is always sufficient because every step consumes at least one
  character; this keeps every definition kernel-computable.
-/

/-! ### Generic list and string helpers -/

/-- Whitespace characters matched by the JavaScript regex class `\\s`,
identified by code point. -/
def isJsSpace (c : Char) : Bool :=
  c = ' ' || c = '\t' || c = '\n' || c = '\r' ||
  c.toNat = 0x0B || c.toNat = 0x0C || c.toNat = 0xA0 || c.toNat = 0x1680 ||
  (0x2000 <= c.toNat && c.toNat <= 0x200A) ||
  c.toNat = 0x2028 || c.toNat = 0x2029 || c.toNat = 0x202F || c.toNat = 0x205F ||
  c.toNat = 0x3000 || c.toNat = 0xFEFF

/-- Substring test on character lists (`String.prototype.includes`). -/
def hasSubstrL (pat : List Char) : List Char → Bool
  | [] => pat.isEmpty
  | c :: cs => pat.isPrefixOf (c :: cs) || hasSubstrL pat cs

/-- `String.prototype.includes`, lifted to `String`. -/
def strIncludes (s pat : String) : Bool :=
  hasSubstrL pat.data s.data

/-- Number of positions of `text` at which `pat` occurs as a substring. -/
def countOccur (pat : List Char) : List Char → Nat
  | [] => if pat.isEmpty then 1 else 0
  | c :: cs => (if pat.isPrefixOf (c :: cs) then 1 else 0) + countOccur pat cs

/-- Keep-first deduplication with an accumulator of already seen elements;
this is the iteration order of a JavaScript `Set` built from an array. -/
def dedupFirstAux [DecidableEq α] (seen : List α) : List α → List α
  | [] => []
  | x :: xs => if x ∈ seen then dedupFirstAux seen xs else x :: dedupFirstAux (x :: seen) xs

/-- `[...new Set(l)]`: the elements of `l`, first occurrences, in order. -/
def dedupFirst [DecidableEq α] (l : List α) : List α :=
  dedupFirstAux [] l

/-- `String.prototype.substring(1)`: the string without its first character. -/
def strDropFirst (s : String) : String :=
  String.mk (s.data.drop 1)

/-! ### Model of the WHATWG URL constructor -/

/-- Components of a parsed URL that `generateR2PathFromUrl` reads. -/
structure UrlParts where
  hostname : String
  pathname : String
  search : String
deriving DecidableEq, Repr

/-- Characters allowed in a URL scheme after the initial letter. -/
def schemeChar (c : Char) : Bool :=
  c.isAlpha || c.isDigit || c = '+' || c = '-' || c = '.'

/-- Model of `new URL(s)` for absolute hierarchical URLs.  The scheme must be
followed by `://` and a non-empty host; the host is lowercased and a port
suffix is stripped; the path runs to `?` or `#`; the query runs to `#`.
Anything else is treated as a constructor failure (`none`). -/
def parseUrl (s : String) : Option UrlParts :=
  match s.data with
  | [] => none
  | c :: cs =>
    if !c.isAlpha then none
    else
      match (c :: cs).dropWhile schemeChar with
      | ':' :: '/' :: '/' :: r =>
        let auth := r.takeWhile (fun x => !(x = '/' || x = '?' || x = '#'))
        let host := auth.takeWhile (fun x => !(x = ':'))
        if host.isEmpty then none
        else
          let r1 := r.drop auth.length
          let path := r1.takeWhile (fun x => !(x = '?' || x = '#'))
          let r2 := r1.drop path.length
          let search :=
            match r2 with
            | '?' :: q => q.takeWhile (fun x => !(x = '#'))
            | _ => []
          some ⟨String.mk (host.map Char.toLower),
                if path.isEmpty then "/" else String.mk path,
                String.mk search⟩
      | _ => none

/-- Value of a single hexadecimal digit, by code point. -/
def hexVal (c : Char) : Option Nat :=
  let n := c.toNat
  if 48 ≤ n && n ≤ 57 then some (n - 48)
  else if 97 ≤ n && n ≤ 102 then some (n - 87)
  else if 65 ≤ n && n ≤ 70 then some (n - 55)
  else none

/-- `application/x-www-form-urlencoded` decoding used by `URLSearchParams`:
`+` becomes a space, `%XX` becomes the character with that code, malformed
escapes are kept verbatim. -/
def formDecode : List Char → List Char
  | [] => []
  | '+' :: r => ' ' :: formDecode r
  | '%' :: a :: b :: r2 =>
    match hexVal a, hexVal b with
    | some ha, some hb => Char.ofNat (16 * ha + hb) :: formDecode r2
    | _, _ => '%' :: formDecode (a :: b :: r2)
  | '%' :: r => '%' :: formDecode r
  | c :: r => c :: formDecode r

/-- Split one `key=value` segment at the first `=`; a missing `=` yields an
empty value.  Both halves are form-decoded. -/
def splitPair (p : List Char) : String × String :=
  let k := p.takeWhile (fun c => !(c = '='))
  let v := if k.length < p.length then p.drop (k.length + 1) else []
  (String.mk (formDecode k), String.mk (formDecode v))

/-- Split a character list at every `&`, keeping empty segments. -/
def splitAmpAux (cur : List Char) : List Char → List (List Char)
  | [] => [cur.reverse]
  | '&' :: r => cur.reverse :: splitAmpAux [] r
  | c :: r => splitAmpAux (c :: cur) r

/-- The `&`-separated segments of a query string. -/
def splitAmp (l : List Char) : List (List Char) :=
  splitAmpAux [] l

/-- `url.searchParams.get(name)`: first value among the `&`-separated
segments of the query whose decoded key equals `name`; empty segments are
skipped. -/
def getSearchParam (search name : String) : Option String :=
  let pairs := ((splitAmp search.data).filter (fun s => !(s = []))).map splitPair
  (pairs.find? (fun p => p.1 = name)).map (fun p => p.2)

/-! ### Path Deriver (`isQpicDomain`, `generateR2PathFromUrl`) -/

/-- Line 12: `url.includes('qpic.cn')` — a substring test on the whole URL
string, not on its hostname. -/
def isQpicDomain (url : String) : Bool :=
  strIncludes url "qpic.cn"

/-- Extension inference from substring hints in the path (lines 42–48). -/
def hintExtension (urlPath : String) : String :=
  if strIncludes urlPath "_png" then "png"
  else if strIncludes urlPath "_gif" then "gif"
  else if strIncludes urlPath "_jpg" || strIncludes urlPath "_jpeg" then "jpg"
  else "jpg"

/-- Result record of `generateR2PathFromUrl`. -/
structure R2PathInfo where
  path : String
  extension : String
deriving DecidableEq, Repr

/-- Lines 22–58: derive the R2 storage path from a URL.  A failing URL
constructor is the `none` of `parseUrl`; the JavaScript truthiness test
`if (wxFmt)` makes an empty `wx_fmt` value fall through to the path hints. -/
def generateR2PathFromUrl (originalUrl : String) : Option R2PathInfo :=
  match parseUrl originalUrl with
  | none => none
  | some urlObj =>
    if !isQpicDomain originalUrl then none
    else
      let domainPrefix :=
        String.mk (urlObj.hostname.data.map (fun c => if c = '.' then '_' else c))
      let urlPath := strDropFirst urlObj.pathname
      let extension :=
        match getSearchParam urlObj.search "wx_fmt" with
        | some f => if f = "" then hintExtension urlPath
                    else if f = "jpeg" then "jpg" else f
        | none => hintExtension urlPath
      some ⟨"/" ++ domainPrefix ++ "/" ++ urlPath ++ "." ++ extension, extension⟩

/-! ### Reference Extractor (`extractWechatImageUrls`)

The regex of line 66 is
`/https?:\/\/mmbiz\.q(?:pic|logo)\.cn\/[^?\s"'<>)\]]+(?:\?[^&\s"'<>)\]]+)?/gi`.
Its alternatives and quantifiers are deterministic on every input (the body
class excludes `?`, the only character that can start the optional query
group), so global matching is maximal munch from the leftmost feasible start
position, continuing after each match. -/

/-- Case-insensitive literal match: consume `pat` (given lowercased) from the
front of the text, returning the rest. -/
def matchCI : List Char → List Char → Option (List Char)
  | [], s => some s
  | _ :: _, [] => none
  | p :: ps, c :: cs => if c.toLower = p then matchCI ps cs else none

/-- Characters allowed in the regex body class `[^?\s"'<>)\]]`. -/
def bodyChar (c : Char) : Bool :=
  !(c = '?' || isJsSpace c || c = '"' || c = '\'' || c = '<' || c = '>' ||
    c = ')' || c = ']')

/-- Characters allowed in the regex query class `[^&\s"'<>)\]]`. -/
def queryChar (c : Char) : Bool :=
  !(c = '&' || isJsSpace c || c = '"' || c = '\'' || c = '<' || c = '>' ||
    c = ')' || c = ']')

/-- Match the fixed head `https?://mmbiz.q(?:pic|logo).cn/` of the regex,
case-insensitively, returning the remaining text. -/
def matchWxHead (s : List Char) : Option (List Char) :=
  match matchCI "http".data s with
  | none => none
  | some r1 =>
    let r2 :=
      match r1 with
      | c :: cs => if c.toLower = 's' then cs else r1
      | [] => r1
    match matchCI "://mmbiz.q".data r2 with
    | none => none
    | some r3 =>
      match matchCI "pic".data r3 with
      | some r4 => matchCI ".cn/".data r4
      | none =>
        match matchCI "logo".data r3 with
        | some r4 => matchCI ".cn/".data r4
        | none => none

/-- Try the image-URL regex at the start of `s`: the head, then a non-empty
greedy run of body characters, then optionally `?` and a non-empty greedy run
of query characters.  Returns the matched text and the rest. -/
def wxMatchAt (s : List Char) : Option (List Char × List Char) :=
  match matchWxHead s with
  | none => none
  | some r1 =>
    let body := r1.takeWhile bodyChar
    if body = [] then none
    else
      let r2 := r1.drop body.length
      let r3 :=
        match r2 with
        | '?' :: rest =>
          let q := rest.takeWhile queryChar
          if q = [] then r2 else rest.drop q.length
        | _ => r2
      some (s.take (s.length - r3.length), r3)

/-- Global scan: try the regex at each position, emit each match and continue
after it.  `fuel` is the input length; every step consumes at least one
character, so it never runs out. -/
def scanMatchesF : Nat → List Char → List (List Char)
  | 0, _ => []
  | _ + 1, [] => []
  | fuel + 1, c :: cs =>
    match wxMatchAt (c :: cs) with
    | some (m, r) => m :: scanMatchesF fuel r
    | none => scanMatchesF fuel cs

/-- `text.match(regex) || []` for the image-URL regex. -/
def scanMatches (s : List Char) : List (List Char) :=
  scanMatchesF s.length s

/-- Trailing punctuation stripped by line 75 (`/[,.)\]]+$/`). -/
def trailPunct (c : Char) : Bool :=
  c = ',' || c = '.' || c = ')' || c = ']'

/-- Remove the maximal run of trailing punctuation characters. -/
def trimTrailingPunct (u : List Char) : List Char :=
  (u.reverse.dropWhile trailPunct).reverse

/-- The concatenated raw matches of both inputs (HTML first), before
deduplication and trimming. -/
def rawWxMatches (html markdown : String) : List String :=
  (scanMatches html.data ++ scanMatches markdown.data).map (fun l => String.mk l)

/-- Lines 64–76: collect matches from both inputs, deduplicate them with a
`Set` (first occurrences, by raw identity), then strip trailing punctuation
from each survivor. -/
def extractWechatImageUrls (html markdown : String) : List String :=
  (dedupFirst (rawWxMatches html markdown)).map
    (fun u => String.mk (trimTrailingPunct u.data))

/-! ### Synchronous Rewriter (`replaceImageUrlsSync`)

Lines 152–161 build two dynamic regexes per extracted URL: the URL with all
regex metacharacters escaped (hence matched literally), `&` rewritten to
`&amp;`, followed by `(?:&amp;[^)\s"'<>\]]+)*`; and the literal URL followed
by `(?:&[^)\s"'<>\]]+)*`.  Both are applied as global replaces with the new
URL as a literal replacement (the storage URLs contain no `$` patterns). -/

/-- Characters allowed in the parameter-chain class `[^)\s"'<>\]]`. -/
def chainChar (c : Char) : Bool :=
  !(c = ')' || isJsSpace c || c = '"' || c = '\'' || c = '<' || c = '>' || c = ']')

/-- One iteration of the chain group: the separator (`&amp;` or `&`) followed
by a non-empty greedy run of chain characters. -/
def chainStep (sep s : List Char) : Option (List Char) :=
  if sep.isPrefixOf s then
    let r := s.drop sep.length
    let run := r.takeWhile chainChar
    if run = [] then none else some (r.drop run.length)
  else none

/-- Greedy star over `chainStep`; each successful step consumes at least one
character, so the input length plus one is sufficient fuel. -/
def chainsF (sep : List Char) : Nat → List Char → List Char
  | 0, s => s
  | fuel + 1, s =>
    match chainStep sep s with
    | some r => chainsF sep fuel r
    | none => s

/-- Consume the maximal trailing parameter chain `(?:SEP [^…]+)*`. -/
def chains (sep s : List Char) : List Char :=
  chainsF sep (s.length + 1) s

/-- Global regex replace for the pattern "literal `pat` plus maximal
parameter chain": scan left to right, at a match emit `new` and continue
after the consumed text, otherwise keep the character.  `fuel` is the input
length, sufficient because a match consumes at least one character
(`pat` is non-empty whenever the guard can fire). -/
def replacePassF (pat new sep : List Char) : Nat → List Char → List Char
  | 0, s => s
  | _ + 1, [] => []
  | fuel + 1, c :: cs =>
    if !pat.isEmpty && pat.isPrefixOf (c :: cs) then
      new ++ replacePassF pat new sep fuel (chains sep ((c :: cs).drop pat.length))
    else
      c :: replacePassF pat new sep fuel cs

/-- `text.replace(regex, new)` for one of the two dynamic regexes. -/
def replacePass (pat new sep s : List Char) : List Char :=
  replacePassF pat new sep s.length s

/-- Line 155: rewrite every `&` of the escaped URL to `&amp;`. -/
def ampEscape (s : List Char) : List Char :=
  s.flatMap (fun c => if c = '&' then "&amp;".data else [c])

/-- Worker environment: the R2 bucket binding may be absent, and the public
base URL may be absent or empty (both are falsy in JavaScript). -/
structure Env where
  IMAGES_BUCKET : Bool
  R2_PUBLIC_URL : Option String
deriving DecidableEq, Repr

/-- JavaScript truthiness of an optional string. -/
def truthyStr : Option String → Bool
  | some s => if s = "" then false else true
  | none => false

/-- The configuration test of lines 132 and 173:
`env.IMAGES_BUCKET && env.R2_PUBLIC_URL` are both truthy. -/
def r2Configured (env : Env) : Bool :=
  env.IMAGES_BUCKET && truthyStr env.R2_PUBLIC_URL

/-- The configured public base URL (only read when configured). -/
def r2BaseUrl (env : Env) : String :=
  env.R2_PUBLIC_URL.getD ""

/-- Loop body of lines 145–162: skip non-allow-listed URLs, then run the
entity-escaped pass followed by the raw pass. -/
def replaceOneUrl (base : String) (r : List Char) (originalUrl : String) : List Char :=
  match generateR2PathFromUrl originalUrl with
  | none => r
  | some pi =>
    let newUrl := (base ++ pi.path).data
    let r1 := replacePass (ampEscape originalUrl.data) newUrl "&amp;".data r
    replacePass originalUrl.data newUrl "&".data r1

/-- Lines 130–166: synchronous link replacement.  Without configuration, or
without any extracted URL, the markdown is returned unchanged. -/
def replaceImageUrlsSync (html markdown : String) (env : Env) : String :=
  if !(r2Configured env) then markdown
  else
    let imageUrls := extractWechatImageUrls html markdown
    if imageUrls = [] then markdown
    else String.mk (imageUrls.foldl (replaceOneUrl (r2BaseUrl env)) markdown.data)

/-! ### Background Fetch-and-Store Worker (`downloadWechatImage`, `uploadImagesToR2Async`)

The R2 bucket is modelled by an association list of stored objects plus a
fault oracle saying which `head`/`put` calls throw; `fetch` is an oracle from
URLs to outcomes.  Within a chunk the concurrent `Promise.allSettled` join is
modelled by one linearisation: items are evaluated in list order, and a
rejected item leaves the store unchanged.  `Date.now()` is the parameter
`now` (milliseconds). -/

/-- An object stored in R2 with the metadata of lines 226–235. -/
structure R2Object where
  contentType : String
  cacheControl : String
  expiresAt : Nat
  originalUrl : String
  body : List Nat
deriving DecidableEq, Repr

/-- The store contents: stored key/object pairs in insertion order. -/
abbrev R2State := List (String × R2Object)

/-- `IMAGES_BUCKET.head(key)` reports whether an object exists under `key`. -/
def r2head (st : R2State) (key : String) : Bool :=
  st.any (fun e => e.1 = key)

/-- `IMAGES_BUCKET.put(key, …)` stores an object under `key`. -/
def r2putState (st : R2State) (key : String) (o : R2Object) : R2State :=
  st ++ [(key, o)]

/-- Outcome of the platform `fetch`: a network error (rejected promise) or a
response with its `ok` flag, optional `content-type` header and body bytes. -/
inductive FetchOutcome where
  | netError
  | response (ok : Bool) (contentType : Option String) (body : List Nat)
deriving DecidableEq, Repr

/-- Result record of `downloadWechatImage`. -/
structure DownloadResult where
  body : List Nat
  contentType : String
  extension : String
deriving DecidableEq, Repr

/-- Lines 107–117: extension inferred from the response content type. -/
def contentTypeExtension (ct : String) : String :=
  if strIncludes ct "png" then "png"
  else if strIncludes ct "gif" then "gif"
  else if strIncludes ct "webp" then "webp"
  else if strIncludes ct "svg" then "svg"
  else "jpg"

/-- Lines 82–125: fetch the image; non-ok responses and network errors both
become `none` (the `catch` turns a thrown error into `null`); a missing
`content-type` header defaults to `image/jpeg`. -/
def downloadWechatImage (fetchO : String → FetchOutcome) (url : String) :
    Option DownloadResult :=
  match fetchO url with
  | .netError => none
  | .response ok ct body =>
    if !ok then none
    else
      let contentType := ct.getD "image/jpeg"
      some ⟨body, contentType, contentTypeExtension contentType⟩

deriving instance DecidableEq for Except

/-- Fault oracle for the bucket: which `head`/`put` calls throw. -/
structure BucketBehavior where
  headFault : String → Bool
  putFault : String → Bool

/-- The bucket behaviour with no faults. -/
def pureBucket : BucketBehavior := ⟨fun _ => false, fun _ => false⟩

/-- How one reference ended, mirroring the `success`/`skipped` record of
lines 202–238. -/
inductive ItemOutcome where
  | skippedNotListed
  | skippedExists
  | downloadFailed
  | uploaded
deriving DecidableEq, Repr

/-- Lines 198–238, the per-reference store step: derive the key, `head` it,
skip if present, otherwise download and `put` with content type, the
cache-control directive, and metadata holding the expiry timestamp
(`now + 8 h`) and the source URL.  A throwing bucket call rejects this
item's promise (`Except.error`) and leaves the store unchanged. -/
def processImage (B : BucketBehavior) (fetchO : String → FetchOutcome) (now : Nat)
    (st : R2State) (url : String) :
    Except String (R2State × ItemOutcome × List String) :=
  match generateR2PathFromUrl url with
  | none => .ok (st, .skippedNotListed, [])
  | some pi =>
    let r2Key := strDropFirst pi.path
    if B.headFault r2Key then .error "head"
    else if r2head st r2Key then .ok (st, .skippedExists, [])
    else
      match downloadWechatImage fetchO url with
      | none => .ok (st, .downloadFailed, [])
      | some d =>
        if B.putFault r2Key then .error "put"
        else
          let expiresAt := now + 8 * 60 * 60 * 1000
          .ok (r2putState st r2Key
                ⟨d.contentType, "public, max-age=28800", expiresAt, url, d.body⟩,
               .uploaded, [r2Key])

/-- A settled promise of `Promise.allSettled`. -/
inductive Settled where
  | fulfilled (oc : ItemOutcome)
  | rejected (e : String)
deriving DecidableEq, Repr

/-- Settle one item of a chunk: a fulfilled item advances the store, a
rejected one (thrown bucket call) leaves it unchanged; either way exactly one
settled outcome is appended and the siblings keep running. -/
def chunkStep (B : BucketBehavior) (fetchO : String → FetchOutcome) (now : Nat)
    (acc : R2State × List Settled × List String) (url : String) :
    R2State × List Settled × List String :=
  match processImage B fetchO now acc.1 url with
  | .ok (st2, oc, puts) => (st2, acc.2.1 ++ [.fulfilled oc], acc.2.2 ++ puts)
  | .error e => (acc.1, acc.2.1 ++ [.rejected e], acc.2.2)

/-- Run one chunk: every item is evaluated and settled, so one rejection
never cancels its siblings.  Returns the store, the settled outcomes in
order, and the keys of the issued `put` calls. -/
def runChunk (B : BucketBehavior) (fetchO : String → FetchOutcome) (now : Nat)
    (st : R2State) (urls : List String) : R2State × List Settled × List String :=
  urls.foldl (chunkStep B fetchO now) (st, [], [])

/-- Lines 188–191: split the URL list into consecutive chunks of `n`
(`CONCURRENCY_LIMIT = 5`).  Fuel is the list length; each step consumes at
least one element. -/
def chunksOfF (n : Nat) : Nat → List α → List (List α)
  | _, [] => []
  | 0, l => [l]
  | fuel + 1, l => l.take n :: chunksOfF n fuel (l.drop n)

/-- The chunks of size `n` of a list, in order. -/
def chunksOf (n : Nat) (l : List α) : List (List α) :=
  chunksOfF n l.length l

/-- Lines 242–247: count fulfilled successes and skips. -/
def settledCounts (l : List Settled) : Nat × Nat :=
  l.foldl
    (fun acc s =>
      match s with
      | .fulfilled .uploaded => (acc.1 + 1, acc.2)
      | .fulfilled .skippedNotListed => (acc.1, acc.2 + 1)
      | .fulfilled .skippedExists => (acc.1, acc.2 + 1)
      | .fulfilled .downloadFailed => acc
      | .rejected _ => acc)
    (0, 0)

/-- Observable result of one worker invocation. -/
structure WorkerResult where
  state : R2State
  settled : List Settled
  puts : List String
  success : Nat
  skip : Nat
  caught : Bool
deriving DecidableEq, Repr

/-- Accumulate one chunk's results into the running store and logs. -/
def bodyStep (B : BucketBehavior) (fetchO : String → FetchOutcome) (now : Nat)
    (acc : R2State × List Settled × List String) (chunk : List String) :
    R2State × List Settled × List String :=
  let r := runChunk B fetchO now acc.1 chunk
  (r.1, acc.2.1 ++ r.2.1, acc.2.2 ++ r.2.2)

/-- Lines 173–250, the body guarded by the outer `try`: config check,
extraction, chunked processing.  Every per-item error is settled by
`Promise.allSettled`, so the body itself never throws; its type still
records where a thrown error would propagate to the outer `catch`. -/
def uploadBody (B : BucketBehavior) (fetchO : String → FetchOutcome) (now : Nat)
    (html markdown : String) (env : Env) (st : R2State) :
    Except String (R2State × List Settled × List String) :=
  if !(r2Configured env) then .ok (st, [], [])
  else
    let imageUrls := extractWechatImageUrls html markdown
    if imageUrls = [] then .ok (st, [], [])
    else
      .ok ((chunksOf 5 imageUrls).foldl (bodyStep B fetchO now) (st, [], []))

/-- Lines 171–254: the worker entry point.  The outer `try/catch` only logs,
so a hypothetical body error yields a normal return with `caught = true`, and
nothing ever propagates to the caller. -/
def uploadImagesToR2Async (B : BucketBehavior) (fetchO : String → FetchOutcome)
    (now : Nat) (html markdown : String) (env : Env) (st : R2State) : WorkerResult :=
  match uploadBody B fetchO now html markdown env st with
  | .ok (st2, settled, puts) =>
    let c := settledCounts settled
    ⟨st2, settled, puts, c.1, c.2, false⟩
  | .error _ => ⟨st, [], [], 0, 0, true⟩

/-! ### Basic lemmas -/

/-- Keep-first deduplication yields no duplicates, and nothing already seen. -/
theorem dedupFirstAux_nodup [DecidableEq α] (l : List α) :
    ∀ seen : List α, (dedupFirstAux seen l).Nodup ∧
      ∀ a ∈ dedupFirstAux seen l, a ∉ seen := by
  induction l with
  | nil => intro seen; simp [dedupFirstAux]
  | cons x xs ih =>
    intro seen
    by_cases hx : x ∈ seen
    · simpa [dedupFirstAux, hx] using ih seen
    · have ihx := ih (x :: seen)
      have hd : dedupFirstAux seen (x :: xs) = x :: dedupFirstAux (x :: seen) xs := by
        simp [dedupFirstAux, hx]
      rw [hd]
      constructor
      · rw [List.nodup_cons]
        exact ⟨fun hmem => (ihx.2 x hmem) (List.mem_cons_self x seen), ihx.1⟩
      · intro a ha
        rw [List.mem_cons] at ha
        rcases ha with rfl | ha
        · exact hx
        · exact fun hs => (ihx.2 a ha) (List.mem_cons_of_mem x hs)

/-- The `Set`-based deduplication never leaves duplicates. -/
theorem dedupFirst_nodup [DecidableEq α] (l : List α) : (dedupFirst l).Nodup :=
  (dedupFirstAux_nodup l []).1

/-! ### C1 -/

/-- C1: the claim says `generateR2PathFromUrl` returns `null` whenever the
URL's hostname is outside the allow-list.  The code only substring-tests the
whole URL string for `qpic.cn`, so a URL on a foreign host whose path merely
mentions `qpic.cn` is accepted: its hostname is `evil.example`, which does
not even contain `qpic.cn`, yet a storage path is derived.  (The unparseable
case of the claim does hold: a malformed URL yields `none`.) -/
theorem generateR2PathFromUrl_hostname_bypass :
    (parseUrl "https://evil.example/qpic.cn").map UrlParts.hostname = some "evil.example"
    ∧ strIncludes "evil.example" "qpic.cn" = false
    ∧ generateR2PathFromUrl "https://evil.example/qpic.cn"
        = some ⟨"/evil_example/qpic.cn.jpg", "jpg"⟩
    ∧ generateR2PathFromUrl "not a url" = none
    ∧ generateR2PathFromUrl "" = none := by
  decide

/-! ### C3 -/

/-- C3 counterexample: deduplication happens on the raw matches before the
trailing-punctuation trim, so two raw matches that differ only in trailing
punctuation survive and become equal entries of the output. -/
theorem extractWechatImageUrls_dup_after_trim :
    extractWechatImageUrls "https://mmbiz.qpic.cn/a," "https://mmbiz.qpic.cn/a"
      = ["https://mmbiz.qpic.cn/a", "https://mmbiz.qpic.cn/a"]
    ∧ ¬ (extractWechatImageUrls "https://mmbiz.qpic.cn/a," "https://mmbiz.qpic.cn/a").Nodup := by
  decide

/-- C3 amended: the combined matches are deduplicated by exact string
identity on the raw matches, before trimming trailing punctuation (so the
output may contain equal entries after trimming); on inputs without any
match the result is the empty list, and the scan itself is total. -/
theorem extractWechatImageUrls_dedups_raw (h m : String) :
    (dedupFirst (rawWxMatches h m)).Nodup
    ∧ extractWechatImageUrls h m
        = (dedupFirst (rawWxMatches h m)).map (fun u => String.mk (trimTrailingPunct u.data))
    ∧ (rawWxMatches h m = [] → extractWechatImageUrls h m = []) := by
  refine ⟨dedupFirst_nodup _, rfl, fun he => ?_⟩
  simp [extractWechatImageUrls, he, dedupFirst, dedupFirstAux]

/-- Witness for C3's amended theorem on concrete inputs without matches. -/
theorem extractWechatImageUrls_dedups_raw_witness :
    (dedupFirst (rawWxMatches "just text" "more text")).Nodup
    ∧ extractWechatImageUrls "just text" "more text" = [] :=
  ⟨(extractWechatImageUrls_dedups_raw "just text" "more text").1,
   (extractWechatImageUrls_dedups_raw "just text" "more text").2.2 (by decide)⟩

/-! ### C5 -/

/-- C5: an eligible reference followed by a raw `&key=value` chain is *not*
replaced as a single unit.  The entity-escaped pass runs first and already
matches the bare reference (its chain group admits zero iterations), so the
raw chain survives attached to the new storage URL; by the time the raw pass
runs, the reference is gone.  The same reference followed by an
HTML-entity-escaped chain *is* consumed as a single unit, which shows the
intended behaviour of the dead second pass. -/
theorem replaceImageUrlsSync_raw_chain_residual :
    replaceImageUrlsSync ""
        "pic https://mmbiz.qpic.cn/sz_mmbiz_jpg/abc/640?wx_fmt=png&from=appmsg&tp=webp end"
        ⟨true, some "Z"⟩
      = "pic Z/mmbiz_qpic_cn/sz_mmbiz_jpg/abc/640.png&from=appmsg&tp=webp end"
    ∧ strIncludes
        (replaceImageUrlsSync ""
          "pic https://mmbiz.qpic.cn/sz_mmbiz_jpg/abc/640?wx_fmt=png&from=appmsg&tp=webp end"
          ⟨true, some "Z"⟩)
        "&from=appmsg" = true
    ∧ replaceImageUrlsSync ""
        "pic https://mmbiz.qpic.cn/sz_mmbiz_jpg/abc/640?wx_fmt=png&amp;from=appmsg&amp;tp=webp end"
        ⟨true, some "Z"⟩
      = "pic Z/mmbiz_qpic_cn/sz_mmbiz_jpg/abc/640.png end" := by
  decide

/-! ### C6 -/

/-- C6: with the bucket binding absent or the public base URL absent (or
empty, which is equally falsy), the rewriter returns the markdown unchanged
for every input, silently. -/
theorem replaceImageUrlsSync_no_config (html markdown : String) (env : Env)
    (h : env.IMAGES_BUCKET = false ∨ truthyStr env.R2_PUBLIC_URL = false) :
    replaceImageUrlsSync html markdown env = markdown := by
  rcases h with h | h <;> simp [replaceImageUrlsSync, r2Configured, h]

/-- Witness for C6 at a concrete environment and document. -/
theorem replaceImageUrlsSync_no_config_witness :
    replaceImageUrlsSync "x" "doc with https://mmbiz.qpic.cn/aa" ⟨false, some "Z"⟩
      = "doc with https://mmbiz.qpic.cn/aa" :=
  replaceImageUrlsSync_no_config _ _ _ (Or.inl rfl)

/-! ### C7 and C8: the store step -/

/-- Once a key is put, a later head on the same key reports existence. -/
theorem r2head_after_put (st : R2State) (k : String) (o : R2Object) :
    r2head (r2putState st k o) k = true := by
  simp [r2head, r2putState]

/-- C7: with a fault-free bucket, a head reporting existence short-circuits
the step with no put; and with the key absent and the download succeeding,
running the store step twice issues exactly one put — the first run uploads,
the second is short-circuited by the existence check on the object the first
run stored. -/
theorem processImage_put_once
    (fetchO : String → FetchOutcome) (now : Nat) (st st2 : R2State) (url : String)
    (pi : R2PathInfo) (d : DownloadResult)
    (hgen : generateR2PathFromUrl url = some pi)
    (hhead2 : r2head st2 (strDropFirst pi.path) = true)
    (hhead : r2head st (strDropFirst pi.path) = false)
    (hdl : downloadWechatImage fetchO url = some d) :
    processImage pureBucket fetchO now st2 url = .ok (st2, .skippedExists, [])
    ∧ processImage pureBucket fetchO now st url
        = .ok (r2putState st (strDropFirst pi.path)
                ⟨d.contentType, "public, max-age=28800", now + 8 * 60 * 60 * 1000, url, d.body⟩,
               .uploaded, [strDropFirst pi.path])
    ∧ processImage pureBucket fetchO now
          (r2putState st (strDropFirst pi.path)
            ⟨d.contentType, "public, max-age=28800", now + 8 * 60 * 60 * 1000, url, d.body⟩)
          url
        = .ok (r2putState st (strDropFirst pi.path)
                ⟨d.contentType, "public, max-age=28800", now + 8 * 60 * 60 * 1000, url, d.body⟩,
               .skippedExists, []) := by
  refine ⟨?_, ?_, ?_⟩
  · simp [processImage, hgen, pureBucket, hhead2]
  · simp [processImage, hgen, pureBucket, hhead, hdl]
  · simp [processImage, hgen, pureBucket, r2head_after_put]

/-- Witness for C7 on a concrete reference, store and fetch oracle. -/
theorem processImage_put_once_witness :
    processImage pureBucket (fun _ => .response true (some "image/png") [7]) 5
        [("mmbiz_qpic_cn/aa.jpg",
          ⟨"image/png", "public, max-age=28800", 28800005, "https://mmbiz.qpic.cn/aa", [7]⟩)]
        "https://mmbiz.qpic.cn/aa"
      = .ok ([("mmbiz_qpic_cn/aa.jpg",
               ⟨"image/png", "public, max-age=28800", 28800005, "https://mmbiz.qpic.cn/aa", [7]⟩)],
             .skippedExists, [])
    ∧ processImage pureBucket (fun _ => .response true (some "image/png") [7]) 5
        [] "https://mmbiz.qpic.cn/aa"
      = .ok (r2putState [] "mmbiz_qpic_cn/aa.jpg"
              ⟨"image/png", "public, max-age=28800", 5 + 8 * 60 * 60 * 1000,
               "https://mmbiz.qpic.cn/aa", [7]⟩,
             .uploaded, ["mmbiz_qpic_cn/aa.jpg"]) := by
  have h := processImage_put_once (fun _ => .response true (some "image/png") [7]) 5
    []
    [("mmbiz_qpic_cn/aa.jpg",
      ⟨"image/png", "public, max-age=28800", 28800005, "https://mmbiz.qpic.cn/aa", [7]⟩)]
    "https://mmbiz.qpic.cn/aa" ⟨"/mmbiz_qpic_cn/aa.jpg", "jpg"⟩
    ⟨[7], "image/png", "png"⟩ (by decide) (by decide) (by decide) (by decide)
  exact ⟨h.1, h.2.1⟩

/-- C8: on a successful fetch of an absent key, the step puts the bytes under
the derived key without its leading slash, with the response content type
(defaulting to `image/jpeg`), the cache-control directive
`public, max-age=28800`, and metadata holding the expiry timestamp
`now + 8 h` and the original URL. -/
theorem processImage_put_metadata
    (fetchO : String → FetchOutcome) (now : Nat) (st : R2State) (url : String)
    (pi : R2PathInfo) (cto : Option String) (body : List Nat)
    (hgen : generateR2PathFromUrl url = some pi)
    (hhead : r2head st (strDropFirst pi.path) = false)
    (hresp : fetchO url = .response true cto body) :
    processImage pureBucket fetchO now st url
      = .ok (r2putState st (strDropFirst pi.path)
              ⟨cto.getD "image/jpeg", "public, max-age=28800",
               now + 8 * 60 * 60 * 1000, url, body⟩,
             .uploaded, [strDropFirst pi.path]) := by
  simp [processImage, hgen, pureBucket, hhead, downloadWechatImage, hresp]

/-- Witness for C8 with a missing content-type header (stored as the default
`image/jpeg`). -/
theorem processImage_put_metadata_witness :
    processImage pureBucket (fun _ => .response true none [5]) 1000 []
        "https://mmbiz.qpic.cn/aa"
      = .ok ([("mmbiz_qpic_cn/aa.jpg",
               ⟨"image/jpeg", "public, max-age=28800", 28801000,
                "https://mmbiz.qpic.cn/aa", [5]⟩)],
             .uploaded, ["mmbiz_qpic_cn/aa.jpg"]) := by
  simpa using processImage_put_metadata (fun _ => .response true none [5]) 1000 []
    "https://mmbiz.qpic.cn/aa" ⟨"/mmbiz_qpic_cn/aa.jpg", "jpg"⟩ none [5]
    (by decide) (by decide) rfl

/-! ### C10 -/

/-- C10: the stored content type comes from the response header (default
`image/jpeg` when absent), not from the extension inferred during key
derivation; concretely, a PNG response stored under a key ending in `.jpg`
keeps the content type `image/png`. -/
theorem downloadWechatImage_header_content_type
    (fetchO : String → FetchOutcome) (url : String) (cto : Option String) (body : List Nat)
    (hresp : fetchO url = .response true cto body) :
    (downloadWechatImage fetchO url).map DownloadResult.contentType
      = some (cto.getD "image/jpeg")
    ∧ processImage pureBucket (fun _ => .response true (some "image/png") []) 0 []
        "https://mmbiz.qpic.cn/abc"
      = .ok ([("mmbiz_qpic_cn/abc.jpg",
               ⟨"image/png", "public, max-age=28800", 28800000,
                "https://mmbiz.qpic.cn/abc", []⟩)],
             .uploaded, ["mmbiz_qpic_cn/abc.jpg"]) := by
  exact ⟨by simp [downloadWechatImage, hresp], by decide⟩

/-- Witness for C10 with a concrete oracle and an absent header. -/
theorem downloadWechatImage_header_content_type_witness :
    (downloadWechatImage (fun _ => .response true none [2]) "u").map DownloadResult.contentType
      = some "image/jpeg" :=
  (downloadWechatImage_header_content_type (fun _ => .response true none [2]) "u" none [2] rfl).1

/-! ### C9: totality of the background worker -/

/-- One chunk step settles exactly one more item, fulfilled or rejected. -/
theorem chunkStep_settled_length (B : BucketBehavior) (fetchO : String → FetchOutcome)
    (now : Nat) (acc : R2State × List Settled × List String) (url : String) :
    (chunkStep B fetchO now acc url).2.1.length = acc.2.1.length + 1 := by
  unfold chunkStep
  split <;> simp

/-- Folding a chunk settles one outcome per item. -/
theorem chunkFold_settled_length (B : BucketBehavior) (fetchO : String → FetchOutcome)
    (now : Nat) (urls : List String) :
    ∀ acc : R2State × List Settled × List String,
      (urls.foldl (chunkStep B fetchO now) acc).2.1.length = acc.2.1.length + urls.length := by
  induction urls with
  | nil => intro acc; simp
  | cons u us ih =>
    intro acc
    rw [List.foldl_cons, ih, chunkStep_settled_length]
    simp only [List.length_cons]
    omega

/-- A chunk run settles exactly its items. -/
theorem runChunk_settled_length (B : BucketBehavior) (fetchO : String → FetchOutcome)
    (now : Nat) (st : R2State) (urls : List String) :
    (runChunk B fetchO now st urls).2.1.length = urls.length := by
  simpa [runChunk] using chunkFold_settled_length B fetchO now urls (st, [], [])

/-- Folding over chunks settles one outcome per element of every chunk. -/
theorem bodyFold_settled_length (B : BucketBehavior) (fetchO : String → FetchOutcome)
    (now : Nat) (chunks : List (List String)) :
    ∀ acc : R2State × List Settled × List String,
      ((chunks.foldl (bodyStep B fetchO now) acc).2.1.length)
        = acc.2.1.length + (chunks.map List.length).sum := by
  induction chunks with
  | nil => intro acc; simp
  | cons c cs ih =>
    intro acc
    have h1 : (bodyStep B fetchO now acc c).2.1.length = acc.2.1.length + c.length := by
      simp [bodyStep, runChunk_settled_length]
    rw [List.foldl_cons, ih, h1, List.map_cons, List.sum_cons]
    omega

/-- Concatenating the chunks gives the original list back (the fuel equals
the length and every step consumes at least one element when `0 < n`). -/
theorem chunksOfF_join (n : Nat) (hn : 0 < n) :
    ∀ (fuel : Nat) (l : List α), l.length ≤ fuel → (chunksOfF n fuel l).join = l := by
  intro fuel
  induction fuel with
  | zero =>
    intro l hl
    have : l = [] := List.eq_nil_of_length_eq_zero (Nat.le_zero.mp hl)
    simp [this, chunksOfF]
  | succ fuel ih =>
    intro l hl
    cases l with
    | nil => simp [chunksOfF]
    | cons x xs =>
      have hdrop : ((x :: xs).drop n).length ≤ fuel := by
        simp only [List.length_drop, List.length_cons] at *
        omega
      simp only [chunksOfF, List.join_cons, ih _ hdrop, List.take_append_drop]

/-- The chunking of lines 188–191 loses no reference. -/
theorem chunksOf_join (n : Nat) (hn : 0 < n) (l : List α) :
    (chunksOf n l).join = l :=
  chunksOfF_join n hn l.length l (Nat.le_refl _)

/-- C9: for every bucket behaviour (including throwing `head`/`put` calls)
and every fetch oracle, the worker returns normally — the outer catch never
fires, so no exception reaches the caller — and it settles exactly one
outcome per extracted reference, so one failing reference never prevents the
remaining ones from being processed. -/
theorem uploadImagesToR2Async_total (B : BucketBehavior) (fetchO : String → FetchOutcome)
    (now : Nat) (html markdown : String) (env : Env) (st : R2State) :
    (uploadImagesToR2Async B fetchO now html markdown env st).caught = false
    ∧ (uploadImagesToR2Async B fetchO now html markdown env st).settled.length
        = (if r2Configured env then (extractWechatImageUrls html markdown).length else 0) := by
  unfold uploadImagesToR2Async uploadBody
  by_cases hc : r2Configured env
  · by_cases he : extractWechatImageUrls html markdown = []
    · simp [hc, he]
    · have hlen : ((chunksOf 5 (extractWechatImageUrls html markdown)).foldl
          (bodyStep B fetchO now) (st, [], [])).2.1.length
          = (extractWechatImageUrls html markdown).length := by
        rw [bodyFold_settled_length]
        have := chunksOf_join 5 (by omega) (extractWechatImageUrls html markdown)
        calc ([] : List Settled).length
              + ((chunksOf 5 (extractWechatImageUrls html markdown)).map List.length).sum
            = ((chunksOf 5 (extractWechatImageUrls html markdown)).join).length := by
              rw [List.length_join]; simp
          _ = (extractWechatImageUrls html markdown).length := by rw [this]
      simp only [hc, he, if_true, if_false, Bool.not_true, ite_false, ite_true]
      constructor
      · rfl
      · simpa using hlen
  · simp [hc]

/-! ### C2: the storage key formula -/

/-- The extension rule as the specification words it: the explicit `wx_fmt`
format parameter when present (`jpeg` mapped to `jpg`, other values passed
through), else the substring hints `_png`, `_gif`, `_jpg`/`_jpeg` in the
path, else the default `jpg`. -/
def claimedExtension (wxFmt : Option String) (pathBody : String) : String :=
  match wxFmt with
  | some f => if f = "jpeg" then "jpg" else f
  | none =>
    if strIncludes pathBody "_png" then "png"
    else if strIncludes pathBody "_gif" then "gif"
    else if strIncludes pathBody "_jpg" || strIncludes pathBody "_jpeg" then "jpg"
    else "jpg"

/-- The storage key as the specification words it: `/`, the hostname with
dots replaced by underscores, `/`, the path without its leading slash, `.`,
the inferred extension. -/
def claimedKey (u : UrlParts) : String :=
  "/" ++ String.mk (u.hostname.data.map (fun c => if c = '.' then '_' else c))
    ++ "/" ++ strDropFirst u.pathname ++ "."
    ++ claimedExtension (getSearchParam u.search "wx_fmt") (strDropFirst u.pathname)

/-- C2: on every parseable URL accepted by the allow-list test whose `wx_fmt`
parameter is not the empty string (an empty value is falsy in JavaScript and
treated as absent), the derived storage key is exactly the claimed formula. -/
theorem generateR2PathFromUrl_formula (u : String) (p : UrlParts)
    (hp : parseUrl u = some p)
    (hq : isQpicDomain u = true)
    (hw : getSearchParam p.search "wx_fmt" ≠ some "") :
    generateR2PathFromUrl u
      = some ⟨claimedKey p,
              claimedExtension (getSearchParam p.search "wx_fmt") (strDropFirst p.pathname)⟩ := by
  cases hg : getSearchParam p.search "wx_fmt" with
  | none =>
    simp [generateR2PathFromUrl, hp, hq, hg, claimedKey, claimedExtension, hintExtension]
  | some f =>
    have hf : ¬ (f = "") := fun h => hw (by rw [hg, h])
    simp [generateR2PathFromUrl, hp, hq, hg, hf, claimedKey, claimedExtension, hintExtension]

/-- Witness for C2 at the specification's example reference. -/
theorem generateR2PathFromUrl_formula_witness :
    generateR2PathFromUrl "https://mmbiz.qpic.cn/sz_mmbiz_png/abc123/640?wx_fmt=png"
      = some ⟨"/mmbiz_qpic_cn/sz_mmbiz_png/abc123/640.png", "png"⟩ := by
  rw [generateR2PathFromUrl_formula
    "https://mmbiz.qpic.cn/sz_mmbiz_png/abc123/640?wx_fmt=png"
    ⟨"mmbiz.qpic.cn", "/sz_mmbiz_png/abc123/640", "wx_fmt=png"⟩
    (by decide) (by decide) (by decide)]
  decide

/-! ### C4: machinery for the rewrite-completeness analysis

A document is presented as a list of blocks: literal text and occurrences of
the pattern.  The two regex passes of the rewriter are characterised on such
block lists, under decidable side conditions saying that the pattern occurs
only at the designated blocks and no parameter chain fires. -/

/-- A block of a document relative to one pattern: literal text, or one
occurrence of the pattern. -/
inductive Blk where
  | lit (s : List Char)
  | hit
deriving DecidableEq, Repr

/-- Render a block list, writing `fill` for every occurrence block. -/
def blkRender (fill : List Char) : List Blk → List Char
  | [] => []
  | .lit s :: r => s ++ blkRender fill r
  | .hit :: r => fill ++ blkRender fill r

/-- `cleanLit pat s t`: the pattern starts at no position inside `s` of the
text `s ++ t`. -/
def cleanLit (pat : List Char) : List Char → List Char → Bool
  | [], _ => true
  | c :: cs, t => !(pat.isPrefixOf (c :: (cs ++ t))) && cleanLit pat cs t

/-- The rendered text does not start with `&`, so no parameter chain
(either flavour starts with `&`) can fire at its head. -/
def headNotAmp : List Char → Bool
  | [] => true
  | c :: _ => !(c = '&')

/-- Side condition for one replace pass over a block list: the pattern never
starts inside a literal block (or straddling its end), and after every
occurrence block the rendering continues with a non-`&` character. -/
def passOk (pat : List Char) : List Blk → Bool
  | [] => true
  | .lit s :: r => cleanLit pat s (blkRender pat r) && passOk pat r
  | .hit :: r => headNotAmp (blkRender pat r) && passOk pat r

/-- A successful chain step strictly shrinks the text. -/
theorem chainStep_le (sep s r : List Char) (h : chainStep sep s = some r) :
    r.length ≤ s.length := by
  simp only [chainStep] at h
  split at h
  · split at h
    · exact absurd h (by simp)
    · have hr := Option.some.inj h
      subst hr
      simp only [List.length_drop]
      omega
  · exact absurd h (by simp)

/-- The chain consumer never grows the text. -/
theorem chainsF_le (sep : List Char) : ∀ (fuel : Nat) (s : List Char),
    (chainsF sep fuel s).length ≤ s.length := by
  intro fuel
  induction fuel with
  | zero => intro s; simp [chainsF]
  | succ fuel ih =>
    intro s
    simp only [chainsF]
    cases h : chainStep sep s with
    | none => simp
    | some r => exact le_trans (ih r) (chainStep_le sep s r h)

/-- `chains` never grows the text. -/
theorem chains_le (sep s : List Char) : (chains sep s).length ≤ s.length :=
  chainsF_le sep (s.length + 1) s

/-- If the separator is not a prefix of the text, no chain is consumed. -/
theorem chains_of_unmatched_sep (sep s : List Char) (h : sep.isPrefixOf s = false) :
    chains sep s = s := by
  simp [chains, chainsF, chainStep, h]

/-- A separator starting with `&` is no prefix of a text whose head is not
`&`. -/
theorem amp_sep_no_match (t s : List Char) (h : headNotAmp s = true) :
    ('&' :: t).isPrefixOf s = false := by
  cases s with
  | nil => rfl
  | cons c cs =>
    simp only [headNotAmp, Bool.not_eq_true'] at h
    have hc : ('&' == c) = false := by
      simp only [beq_eq_false_iff_ne]
      intro hh
      rw [← hh] at h
      simp at h
    simp [List.isPrefixOf, hc]

/-- Any fuel at least the input length computes the canonical replace pass. -/
theorem replacePassF_fuel (pat new sep : List Char) :
    ∀ (k : Nat) (s : List Char) (fuel : Nat), s.length ≤ k → s.length ≤ fuel →
      replacePassF pat new sep fuel s = replacePass pat new sep s := by
  intro k
  induction k with
  | zero =>
    intro s fuel h0 _
    have hs : s = [] := List.eq_nil_of_length_eq_zero (Nat.le_zero.mp h0)
    subst hs
    cases fuel <;> rfl
  | succ k ih =>
    intro s fuel h0 hf
    cases s with
    | nil => cases fuel <;> rfl
    | cons c cs =>
      cases fuel with
      | zero => simp at hf
      | succ fuel =>
        have hcs_k : cs.length ≤ k := by
          simp only [List.length_cons] at h0; omega
        have hcs_f : cs.length ≤ fuel := by
          simp only [List.length_cons] at hf; omega
        show replacePassF pat new sep (fuel + 1) (c :: cs)
          = replacePassF pat new sep (c :: cs).length (c :: cs)
        cases hcond : (!pat.isEmpty && pat.isPrefixOf (c :: cs)) with
        | true =>
          have hpat1 : 1 ≤ pat.length := by
            cases pat with
            | nil => simp at hcond
            | cons _ _ => simp
          have hrest : (chains sep ((c :: cs).drop pat.length)).length ≤ cs.length := by
            have h1 := chains_le sep ((c :: cs).drop pat.length)
            have h2 : ((c :: cs).drop pat.length).length ≤ cs.length := by
              simp only [List.length_drop, List.length_cons]
              omega
            omega
          have e1 : replacePassF pat new sep (fuel + 1) (c :: cs)
              = new ++ replacePassF pat new sep fuel
                  (chains sep ((c :: cs).drop pat.length)) := by
            simp [replacePassF, hcond]
          have e2 : replacePassF pat new sep (c :: cs).length (c :: cs)
              = new ++ replacePassF pat new sep cs.length
                  (chains sep ((c :: cs).drop pat.length)) := by
            simp only [List.length_cons]
            simp [replacePassF, hcond]
          rw [e1, e2, ih _ fuel (le_trans hrest hcs_k) (le_trans hrest hcs_f),
              ih _ cs.length (le_trans hrest hcs_k) hrest]
        | false =>
          have e1 : replacePassF pat new sep (fuel + 1) (c :: cs)
              = c :: replacePassF pat new sep fuel cs := by
            simp [replacePassF, hcond]
          have e2 : replacePassF pat new sep (c :: cs).length (c :: cs)
              = c :: replacePassF pat new sep cs.length cs := by
            simp only [List.length_cons]
            simp [replacePassF, hcond]
          rw [e1, e2, ih cs fuel hcs_k hcs_f, ih cs cs.length hcs_k (le_refl _)]

/-- The replace pass on the empty text. -/
theorem replacePass_nil (pat new sep : List Char) : replacePass pat new sep [] = [] :=
  rfl

/-- The replace pass at a non-matching position keeps the character. -/
theorem replacePass_cons_neg (pat new sep : List Char) (c : Char) (cs : List Char)
    (h : (!pat.isEmpty && pat.isPrefixOf (c :: cs)) = false) :
    replacePass pat new sep (c :: cs) = c :: replacePass pat new sep cs := by
  unfold replacePass
  simp only [List.length_cons]
  simp [replacePassF, h]

/-- The replace pass at a matching position emits the replacement and skips
the pattern with its parameter chain. -/
theorem replacePass_cons_pos (pat new sep : List Char) (c : Char) (cs : List Char)
    (h : (!pat.isEmpty && pat.isPrefixOf (c :: cs)) = true) :
    replacePass pat new sep (c :: cs)
      = new ++ replacePass pat new sep (chains sep ((c :: cs).drop pat.length)) := by
  have hpat1 : 1 ≤ pat.length := by
    cases pat with
    | nil => simp at h
    | cons _ _ => simp
  have hrest : (chains sep ((c :: cs).drop pat.length)).length ≤ cs.length := by
    have h1 := chains_le sep ((c :: cs).drop pat.length)
    have h2 : ((c :: cs).drop pat.length).length ≤ cs.length := by
      simp only [List.length_drop, List.length_cons]
      omega
    omega
  have h1 : replacePass pat new sep (c :: cs)
      = new ++ replacePassF pat new sep cs.length
          (chains sep ((c :: cs).drop pat.length)) := by
    unfold replacePass
    simp only [List.length_cons]
    simp [replacePassF, h]
  rw [h1, replacePassF_fuel pat new sep
    (chains sep ((c :: cs).drop pat.length)).length _ cs.length (le_refl _) hrest]

/-- The replace pass walks through a literal prefix in which the pattern
never starts. -/
theorem replacePass_append_clean (pat new sep : List Char) :
    ∀ (s t : List Char), cleanLit pat s t = true →
      replacePass pat new sep (s ++ t) = s ++ replacePass pat new sep t := by
  intro s
  induction s with
  | nil => intro t _; simp
  | cons c cs ih =>
    intro t h
    have h' : (!(pat.isPrefixOf (c :: (cs ++ t)))) = true ∧ cleanLit pat cs t = true := by
      simpa [cleanLit, Bool.and_eq_true] using h
    have hpf : pat.isPrefixOf (c :: (cs ++ t)) = false := by
      simpa using h'.1
    have hguard : (!pat.isEmpty && pat.isPrefixOf (c :: (cs ++ t))) = false := by
      simp [hpf]
    calc replacePass pat new sep ((c :: cs) ++ t)
        = replacePass pat new sep (c :: (cs ++ t)) := by simp
      _ = c :: replacePass pat new sep (cs ++ t) := replacePass_cons_neg _ _ _ _ _ hguard
      _ = c :: (cs ++ replacePass pat new sep t) := by rw [ih t h'.2]
      _ = (c :: cs) ++ replacePass pat new sep t := by simp

/-- A text in which the pattern never starts is left unchanged. -/
theorem replacePass_clean (pat new sep s : List Char) (h : cleanLit pat s [] = true) :
    replacePass pat new sep s = s := by
  have h1 := replacePass_append_clean pat new sep s [] h
  simpa [replacePass_nil] using h1

/-- A list is a prefix of itself followed by anything. -/
theorem isPrefixOf_append_self (p t : List Char) : p.isPrefixOf (p ++ t) = true := by
  induction p with
  | nil => simp [List.isPrefixOf]
  | cons a as ih => simp [List.isPrefixOf, ih]

/-- Characterisation of one replace pass on a block list: every occurrence
block becomes the replacement (no chain fires after it), every literal block
is kept verbatim. -/
theorem replacePass_blocks (pat new t : List Char) (hp : 1 ≤ pat.length) :
    ∀ bl : List Blk, passOk pat bl = true →
      replacePass pat new ('&' :: t) (blkRender pat bl) = blkRender new bl := by
  intro bl
  induction bl with
  | nil => intro _; exact replacePass_nil _ _ _
  | cons b r ih =>
    cases b with
    | lit s =>
      intro hok
      have h' : cleanLit pat s (blkRender pat r) = true ∧ passOk pat r = true := by
        simpa [passOk, Bool.and_eq_true] using hok
      show replacePass pat new ('&' :: t) (s ++ blkRender pat r) = s ++ blkRender new r
      rw [replacePass_append_clean pat new ('&' :: t) s (blkRender pat r) h'.1, ih h'.2]
    | hit =>
      intro hok
      have h' : headNotAmp (blkRender pat r) = true ∧ passOk pat r = true := by
        simpa [passOk, Bool.and_eq_true] using hok
      show replacePass pat new ('&' :: t) (pat ++ blkRender pat r) = new ++ blkRender new r
      obtain ⟨c, cs, hpat⟩ : ∃ c cs, pat = c :: cs := by
        cases pat with
        | nil => simp at hp
        | cons c cs => exact ⟨c, cs, rfl⟩
      have hshape : pat ++ blkRender pat r = c :: (cs ++ blkRender pat r) := by
        rw [hpat]; rfl
      have hguard : (!pat.isEmpty && pat.isPrefixOf (c :: (cs ++ blkRender pat r))) = true := by
        have h1 : pat.isPrefixOf (c :: (cs ++ blkRender pat r)) = true := by
          rw [← hshape]
          exact isPrefixOf_append_self pat _
        rw [h1, hpat]
        rfl
      have hdrop : (c :: (cs ++ blkRender pat r)).drop pat.length = blkRender pat r := by
        rw [← hshape]
        exact List.drop_left pat (blkRender pat r)
      rw [hshape, replacePass_cons_pos pat new ('&' :: t) c (cs ++ blkRender pat r) hguard,
          hdrop, chains_of_unmatched_sep _ _ (amp_sep_no_match t _ h'.1), ih h'.2]

/-- A token of the structured document: literal text or the `i`-th extracted
reference. -/
inductive DocTok where
  | txt (s : String)
  | ref (i : Nat)
deriving DecidableEq, Repr

/-- Render one token at stage `j`: references already processed (`i < j`)
show their storage URL, later ones still show the original reference. -/
def tokRender (us bs : List String) (j : Nat) : DocTok → List Char
  | .txt s => s.data
  | .ref i => if i < j then (bs.getD i "").data else (us.getD i "").data

/-- Render the document at stage `j`. -/
def renderStage (us bs : List String) (j : Nat) (parts : List DocTok) : List Char :=
  (parts.map (tokRender us bs j)).flatten

/-- The block decomposition of the stage-`j` document relative to the `j`-th
reference: its occurrences are the hits, everything else is literal. -/
def stageBlocks (us bs : List String) (j : Nat) (parts : List DocTok) : List Blk :=
  parts.map (fun tk =>
    match tk with
    | .txt s => Blk.lit s.data
    | .ref i => if i = j then Blk.hit else Blk.lit (tokRender us bs j (.ref i)))

/-- Filling the hits with the `j`-th reference renders the stage-`j`
document. -/
theorem blkRender_stage (us bs : List String) (j : Nat) :
    ∀ parts : List DocTok,
      blkRender ((us.getD j "").data) (stageBlocks us bs j parts)
        = renderStage us bs j parts := by
  intro parts
  induction parts with
  | nil => rfl
  | cons tk r ih =>
    cases tk with
    | txt s =>
      show s.data ++ blkRender ((us.getD j "").data) (stageBlocks us bs j r)
          = s.data ++ renderStage us bs j r
      rw [ih]
    | ref i =>
      have hcons : stageBlocks us bs j (DocTok.ref i :: r)
          = (if i = j then Blk.hit else Blk.lit (tokRender us bs j (DocTok.ref i)))
            :: stageBlocks us bs j r := rfl
      by_cases hij : i = j
      · subst hij
        rw [hcons, if_pos rfl]
        show (us.getD i "").data ++ blkRender ((us.getD i "").data) (stageBlocks us bs i r)
            = tokRender us bs i (DocTok.ref i) ++ renderStage us bs i r
        rw [ih]
        congr 1
        simp [tokRender, Nat.lt_irrefl]
      · rw [hcons, if_neg hij]
        show tokRender us bs j (DocTok.ref i)
              ++ blkRender ((us.getD j "").data) (stageBlocks us bs j r)
            = tokRender us bs j (DocTok.ref i) ++ renderStage us bs j r
        rw [ih]

/-- Filling the hits with the `j`-th storage URL renders the stage-`j+1`
document. -/
theorem blkRender_stage_succ (us bs : List String) (j : Nat) :
    ∀ parts : List DocTok,
      blkRender ((bs.getD j "").data) (stageBlocks us bs j parts)
        = renderStage us bs (j + 1) parts := by
  intro parts
  induction parts with
  | nil => rfl
  | cons tk r ih =>
    cases tk with
    | txt s =>
      show s.data ++ blkRender ((bs.getD j "").data) (stageBlocks us bs j r)
          = s.data ++ renderStage us bs (j + 1) r
      rw [ih]
    | ref i =>
      have hcons : stageBlocks us bs j (DocTok.ref i :: r)
          = (if i = j then Blk.hit else Blk.lit (tokRender us bs j (DocTok.ref i)))
            :: stageBlocks us bs j r := rfl
      by_cases hij : i = j
      · subst hij
        rw [hcons, if_pos rfl]
        show (bs.getD i "").data ++ blkRender ((bs.getD i "").data) (stageBlocks us bs i r)
            = tokRender us bs (i + 1) (DocTok.ref i) ++ renderStage us bs (i + 1) r
        rw [ih]
        congr 1
        simp [tokRender, Nat.lt_succ_self]
      · rw [hcons, if_neg hij]
        show tokRender us bs j (DocTok.ref i)
              ++ blkRender ((bs.getD j "").data) (stageBlocks us bs j r)
            = tokRender us bs (j + 1) (DocTok.ref i) ++ renderStage us bs (j + 1) r
        rw [ih]
        congr 1
        by_cases hlt : i < j
        · simp [tokRender, hlt, Nat.lt_succ_of_lt hlt]
        · have h2 : ¬ i < j + 1 := by omega
          simp [tokRender, hlt, h2]

/-- Escaping `&` is the identity on a reference containing no `&`. -/
theorem ampEscape_of_no_amp : ∀ s : List Char, '&' ∉ s → ampEscape s = s := by
  intro s
  induction s with
  | nil => intro _; rfl
  | cons c cs ih =>
    intro h
    have hc : ¬ (c = '&') := fun hh => h (by rw [hh]; exact List.mem_cons_self _ _)
    have hcs : '&' ∉ cs := fun hm => h (List.mem_cons_of_mem _ hm)
    show (if c = '&' then "&amp;".data else [c]) ++ ampEscape cs = c :: cs
    rw [if_neg hc, ih hcs]
    rfl

/-- A URL accepted by the Path Deriver is non-empty. -/
theorem generateR2Path_ne_empty {u : String} {pi : R2PathInfo}
    (h : generateR2PathFromUrl u = some pi) : 1 ≤ u.data.length := by
  cases hd : u.data with
  | nil => simp [generateR2PathFromUrl, parseUrl, hd] at h
  | cons _ _ => simp [hd]

/-- Side condition for processing the `j`-th reference: it is eligible, its
storage URL is the configured base plus its derived path, it contains no `&`,
the pattern occurs in the stage-`j` document exactly at its designated
occurrence blocks with no chain firing after them, and it no longer occurs in
the stage-`j+1` document. -/
def c4StageOk (base : String) (us bs : List String) (parts : List DocTok) (j : Nat) : Bool :=
  match generateR2PathFromUrl (us.getD j "") with
  | none => false
  | some pi =>
    (bs.getD j "" == base ++ pi.path)
    && !(decide ('&' ∈ (us.getD j "").data))
    && passOk (us.getD j "").data (stageBlocks us bs j parts)
    && cleanLit (us.getD j "").data (renderStage us bs (j + 1) parts) []

/-- Processing the `j`-th reference turns the stage-`j` document into the
stage-`j+1` document: the entity pass replaces every designated occurrence,
and the raw pass finds nothing left. -/
theorem replaceOneUrl_stage (base : String) (us bs : List String) (parts : List DocTok)
    (j : Nat) (hok : c4StageOk base us bs parts j = true) :
    replaceOneUrl base (renderStage us bs j parts) (us.getD j "")
      = renderStage us bs (j + 1) parts := by
  unfold c4StageOk at hok
  cases hgen : generateR2PathFromUrl (us.getD j "") with
  | none => rw [hgen] at hok; simp at hok
  | some pi =>
    rw [hgen] at hok
    simp only [Bool.and_eq_true] at hok
    obtain ⟨⟨⟨hb, hamp⟩, hpass⟩, hclean⟩ := hok
    have hbe : bs.getD j "" = base ++ pi.path := eq_of_beq hb
    have hnoamp : '&' ∉ (us.getD j "").data := by simpa using hamp
    have hlen : 1 ≤ (us.getD j "").data.length := generateR2Path_ne_empty hgen
    have hinner : replacePass (us.getD j "").data (base ++ pi.path).data
        ['&', 'a', 'm', 'p', ';'] (renderStage us bs j parts)
        = renderStage us bs (j + 1) parts := by
      rw [← blkRender_stage us bs j parts,
          replacePass_blocks _ _ ['a', 'm', 'p', ';'] hlen _ hpass,
          show ((base ++ pi.path).data) = ((bs.getD j "").data) by rw [hbe]]
      exact blkRender_stage_succ us bs j parts
    simp only [replaceOneUrl, hgen]
    rw [ampEscape_of_no_amp _ hnoamp, hinner, replacePass_clean _ _ _ _ hclean]

/-- Dropping `j` elements of a list exposes its `j`-th element. -/
theorem drop_eq_getD_cons : ∀ (l : List String) (j : Nat), j < l.length →
    l.drop j = l.getD j "" :: l.drop (j + 1) := by
  intro l
  induction l with
  | nil => intro j h; simp at h
  | cons x xs ih =>
    intro j h
    cases j with
    | zero => simp [List.getD]
    | succ j =>
      have hx := ih j (by simpa using h)
      simpa [List.getD_cons_succ] using hx

/-- Folding the rewrite loop over the remaining references walks the stages
to the final document. -/
theorem replaceLoop_stages (base : String) (us bs : List String) (parts : List DocTok) :
    ∀ (n j : Nat), j + n = us.length →
      (∀ i, i < us.length → c4StageOk base us bs parts i = true) →
      (us.drop j).foldl (replaceOneUrl base) (renderStage us bs j parts)
        = renderStage us bs us.length parts := by
  intro n
  induction n with
  | zero =>
    intro j hj _
    have hje : j = us.length := by omega
    subst hje
    rw [List.drop_length]
    rfl
  | succ n ih =>
    intro j hj hall
    have hjlt : j < us.length := by omega
    rw [drop_eq_getD_cons us j hjlt, List.foldl_cons,
        replaceOneUrl_stage base us bs parts j (hall j hjlt)]
    exact ih (j + 1) (by omega) hall

/-- C4 amended: for a configured environment and a document that decomposes
into literal text and standalone occurrences of the `N` distinct extracted
eligible references — each reference appearing `k` times, occurring nowhere
else (in particular not inside another reference or a storage URL), with no
parameter chain attached, and with storage URLs `bs` that are fresh for the
final document — the rewriter produces exactly the document with every
occurrence replaced by its storage URL; hence no original reference survives
and each storage URL appears exactly `k` times. -/
theorem replaceImageUrlsSync_rewrites (html md : String) (env : Env)
    (base : String) (us bs : List String) (parts : List DocTok) (k : Nat)
    (hcfg : env.IMAGES_BUCKET = true)
    (hbase : env.R2_PUBLIC_URL = some base)
    (hb : base ≠ "")
    (hex : extractWechatImageUrls html md = us)
    (hne : us ≠ [])
    (hnd : us.Nodup)
    (hmd : md.data = renderStage us bs 0 parts)
    (hstage : ∀ i, i < us.length → c4StageOk base us bs parts i = true)
    (hk : ∀ i, i < us.length → countOccur (us.getD i "").data md.data = k)
    (hfreshU : ∀ i, i < us.length →
        countOccur (us.getD i "").data (renderStage us bs us.length parts) = 0)
    (hfreshB : ∀ i, i < us.length →
        countOccur (bs.getD i "").data (renderStage us bs us.length parts) = k) :
    (replaceImageUrlsSync html md env).data = renderStage us bs us.length parts
    ∧ (∀ i, i < us.length →
        countOccur (us.getD i "").data (replaceImageUrlsSync html md env).data = 0)
    ∧ (∀ i, i < us.length →
        countOccur (bs.getD i "").data (replaceImageUrlsSync html md env).data = k) := by
  have hconf : r2Configured env = true := by
    simp [r2Configured, hcfg, hbase, truthyStr, hb]
  have hbase2 : r2BaseUrl env = base := by simp [r2BaseUrl, hbase]
  have hmain : (replaceImageUrlsSync html md env).data
      = renderStage us bs us.length parts := by
    have h1 : replaceImageUrlsSync html md env
        = String.mk (us.foldl (replaceOneUrl base) md.data) := by
      unfold replaceImageUrlsSync
      rw [hconf, hex, hbase2]
      simp [hne]
    rw [h1]
    show us.foldl (replaceOneUrl base) md.data = renderStage us bs us.length parts
    rw [hmd]
    have h2 := replaceLoop_stages base us bs parts us.length 0 (by omega) hstage
    simpa using h2
  exact ⟨hmain,
    fun i hi => by rw [hmain]; exact hfreshU i hi,
    fun i hi => by rw [hmain]; exact hfreshB i hi⟩

/-- Witness for the amended C4 on a two-reference document. -/
theorem replaceImageUrlsSync_rewrites_witness :
    (replaceImageUrlsSync "" "x https://mmbiz.qpic.cn/aa https://mmbiz.qpic.cn/bb"
        ⟨true, some "Z"⟩).data
      = renderStage ["https://mmbiz.qpic.cn/aa", "https://mmbiz.qpic.cn/bb"]
          ["Z/mmbiz_qpic_cn/aa.jpg", "Z/mmbiz_qpic_cn/bb.jpg"] 2
          [DocTok.txt "x ", DocTok.ref 0, DocTok.txt " ", DocTok.ref 1] :=
  (replaceImageUrlsSync_rewrites "" "x https://mmbiz.qpic.cn/aa https://mmbiz.qpic.cn/bb"
    ⟨true, some "Z"⟩ "Z"
    ["https://mmbiz.qpic.cn/aa", "https://mmbiz.qpic.cn/bb"]
    ["Z/mmbiz_qpic_cn/aa.jpg", "Z/mmbiz_qpic_cn/bb.jpg"]
    [DocTok.txt "x ", DocTok.ref 0, DocTok.txt " ", DocTok.ref 1] 1
    rfl rfl (by decide) (by decide) (by decide) (by decide) (by decide)
    (by decide) (by decide) (by decide) (by decide)).1

/-- C4 counterexample: a document with `N = 2` distinct eligible references,
each appearing exactly once (`k = 1`) — the first embedded inside the second
— for which the rewritten document contains the second reference's storage
URL zero times instead of once (only one storage URL occurrence in total
instead of `N·k = 2`): replacing the first reference destroys the embedded
occurrence inside the second before the second is processed. -/
theorem replaceImageUrlsSync_embedded_ref_cex :
    extractWechatImageUrls "https://mmbiz.qpic.cn/a"
        "https://mmbiz.qpic.cn/z/https://mmbiz.qpic.cn/a"
      = ["https://mmbiz.qpic.cn/a", "https://mmbiz.qpic.cn/z/https://mmbiz.qpic.cn/a"]
    ∧ (["https://mmbiz.qpic.cn/a",
        "https://mmbiz.qpic.cn/z/https://mmbiz.qpic.cn/a"] : List String).Nodup
    ∧ countOccur "https://mmbiz.qpic.cn/a".data
        "https://mmbiz.qpic.cn/z/https://mmbiz.qpic.cn/a".data = 1
    ∧ countOccur "https://mmbiz.qpic.cn/z/https://mmbiz.qpic.cn/a".data
        "https://mmbiz.qpic.cn/z/https://mmbiz.qpic.cn/a".data = 1
    ∧ generateR2PathFromUrl "https://mmbiz.qpic.cn/a"
        = some ⟨"/mmbiz_qpic_cn/a.jpg", "jpg"⟩
    ∧ (generateR2PathFromUrl
        "https://mmbiz.qpic.cn/z/https://mmbiz.qpic.cn/a").isSome = true
    ∧ replaceImageUrlsSync "https://mmbiz.qpic.cn/a"
        "https://mmbiz.qpic.cn/z/https://mmbiz.qpic.cn/a" ⟨true, some "Z"⟩
      = "https://mmbiz.qpic.cn/z/Z/mmbiz_qpic_cn/a.jpg"
    ∧ countOccur "Z/mmbiz_qpic_cn/z/https://mmbiz.qpic.cn/a.jpg".data
        "https://mmbiz.qpic.cn/z/Z/mmbiz_qpic_cn/a.jpg".data = 0
    ∧ countOccur "Z/mmbiz_qpic_cn/a.jpg".data
        "https://mmbiz.qpic.cn/z/Z/mmbiz_qpic_cn/a.jpg".data = 1 := by
  decide
